import Mathlib

/-!
Verification of the vcpkg asset-cache maintenance scripts
(`src/vcpkg/vcpkg_assets.py`) against their specification.

The embedding models the module's pure logic over an abstract filesystem
snapshot.  Python `dict`s (insertion ordered, unique keys, `|=` merges with
last-write-wins) are modelled as association lists with an insert operation
that replaces in place or appends at the end, exactly like CPython.  File
names are `String`s relative to the asset-cache directory; the snapshot
records the cache directory's file listing, the parsed JSON document of each
cache file, the manifest directory's project names (stems of the `*.json`
manifest files) and the manifest hash function (`calc_file_hash` applied to
each manifest's bytes).  Fallible Python code (raised exceptions) is modelled
with `Except`.
-/

namespace Vcpkg

/-- A Python `dict[str, str]` as an insertion-ordered association list. -/
abbrev AssetDict := List (String × String)

/-- CPython `d[k] = v`: replace the value in place when the key is present
(keeping its position), otherwise append the binding at the end. -/
def dictInsert (d : AssetDict) (k v : String) : AssetDict :=
  if d.any (fun p => p.1 == k) then
    d.map (fun p => if p.1 == k then (k, v) else p)
  else
    d ++ [(k, v)]

/-- CPython `d1 | d2` / `d1 |= d2`: insert `d2`'s bindings left to right,
later entries overwriting earlier ones on key collision. -/
def dictUnion (d1 d2 : AssetDict) : AssetDict :=
  d2.foldl (fun acc p => dictInsert acc p.1 p.2) d1

/-- CPython `list(d)`: the keys in insertion order. -/
def dictKeys (d : AssetDict) : List String :=
  d.map (fun p => p.1)

/-- The parsed JSON document of a metadata file.  The two fields the program
defines are modelled; `none` means the key is absent from the document
(extra, unknown keys are outside the model).  `vcpkg_assets.py` line 24. -/
structure MetadataDoc where
  manifest_hash : Option String
  assets : Option AssetDict
deriving Repr, DecidableEq

/-- `AssetsInfo`: the in-memory per-manifest metadata record,
`vcpkg_assets.py` lines 24-31. -/
structure AssetsInfo where
  manifest_hash : String
  assets : AssetDict
deriving Repr, DecidableEq

/-- `AssetsInfo.__init__`: `manifest_hash = ''`, `assets = {}`. -/
def AssetsInfo.empty : AssetsInfo := { manifest_hash := "", assets := [] }

/-- The exceptions the modelled code can raise. -/
inductive PyError
  | fileNotFound
  | keyError
deriving Repr, DecidableEq

/-- A snapshot of the filesystem as the module reads it: the asset-cache
directory's file listing (`ASSET_CACHE_DIR.glob('*')`, regular files, assumed
free of dot-hidden names so that the listing and `is_file` agree), the parsed
JSON document of each cache file, the manifest stems
(`MANIFEST_DIR.glob('*.json')`, each file's stem is the project name) and the
sha1 hash of each manifest's current bytes (`calc_file_hash`). -/
structure Snapshot where
  cacheFileNames : List String
  infoData : String → MetadataDoc
  manifestNames : List String
  manifestHash : String → String

/-- `(ASSET_CACHE_DIR / name).is_file()` for a static snapshot. -/
def isCacheFile (s : Snapshot) (name : String) : Bool :=
  s.cacheFileNames.contains name

/-- One character of `[0-9a-f]`. -/
def isLowerHexChar (c : Char) : Bool :=
  ('0' ≤ c && c ≤ '9') || ('a' ≤ c && c ≤ 'f')

/-- `AssetsState._is_asset_file`: `re.fullmatch(r'[0-9a-f]{128}', name)`,
line 296. -/
def is_asset_file (name : String) : Bool :=
  name.toList.length == 128 && name.toList.all isLowerHexChar

/-- `AssetsState._get_project_name_from_info_file`:
`re.fullmatch(r'_(.*)\x7b\x7d.json', ...)` without the braces, i.e.
`_(.*)\.json`, line 304.  A full match forces the decomposition
`'_' ++ middle ++ '.json'`; `.` does not match a newline in Python, so the
middle must be newline-free. -/
def get_project_name_from_info_file (name : String) : Option String :=
  let cs := name.toList
  if 6 ≤ cs.length ∧ cs.take 1 = ['_'] ∧
      cs.drop (cs.length - 5) = ['.', 'j', 's', 'o', 'n'] ∧
      ((cs.drop 1).take (cs.length - 6)).all (fun c => c != '\n') then
    some (String.mk ((cs.drop 1).take (cs.length - 6)))
  else
    none

/-- `AssetsState._is_info_file`: `bool(project_name)` — `None` and the empty
string are falsy, line 300. -/
def is_info_file (name : String) : Bool :=
  match get_project_name_from_info_file name with
  | some p => p != ""
  | none => false

/-- `partition_by_predicate`, line 468: the loop collects the items
satisfying the predicate and the rest, both in input order. -/
def partition_by_predicate (l : List String) (p : String → Bool) :
    List String × List String :=
  (l.filter p, l.filter (fun x => !(p x)))

/-- `AssetsState._get_asset_cache_dir_files`, line 286: split the cache
listing into asset-shaped files, then info-shaped files, then the rest. -/
def get_asset_cache_dir_files (s : Snapshot) :
    List String × List String × List String :=
  let files := s.cacheFileNames
  let ai := partition_by_predicate files is_asset_file
  let io := partition_by_predicate ai.2 is_info_file
  (ai.1, io.1, io.2)

/-- `f'_\x7bproject_name\x7d.json'` (line 321 / line 89). -/
def infoFileName (project : String) : String :=
  "_" ++ project ++ ".json"

/-- `AssetsInfo.__dict__ |= data`: a present key overwrites the default
field value, an absent key leaves the default. -/
def applyDoc (info : AssetsInfo) (d : MetadataDoc) : AssetsInfo :=
  { manifest_hash := d.manifest_hash.getD info.manifest_hash,
    assets := d.assets.getD info.assets }

/-- `AssetsInfo.load_from_file` on a file known to exist (the only use in
`_categorize_info_files` is guarded by `info_file.is_file()`). -/
def loadExisting (s : Snapshot) (file : String) : AssetsInfo :=
  applyDoc AssetsInfo.empty (s.infoData file)

/-- `AssetsInfo._load_data_from_file`, line 48: the parsed document, `{}`
when the file is missing and `missing_ok`, `FileNotFoundError` otherwise. -/
def load_data_from_file (s : Snapshot) (file : String) (missing_ok : Bool) :
    Except PyError MetadataDoc :=
  if isCacheFile s file then .ok (s.infoData file)
  else if missing_ok then .ok { manifest_hash := none, assets := none }
  else .error .fileNotFound

/-- `AssetsInfo.load_from_file`, line 34. -/
def load_from_file (s : Snapshot) (file : String) (missing_ok : Bool) :
    Except PyError AssetsInfo :=
  match load_data_from_file s file missing_ok with
  | .error e => .error e
  | .ok d => .ok (applyDoc AssetsInfo.empty d)

/-- The loop of `AssetsInfo.load_from_files`, line 42:
`assets_info.assets |= loaded_data['assets']` — note that the subscript
raises `KeyError` when the loaded document has no `assets` key (in
particular when `_load_data_from_file` returned `{}` for a missing file). -/
def load_assets_loop (s : Snapshot) (missing_ok : Bool) :
    AssetsInfo → List String → Except PyError AssetsInfo
  | info, [] => .ok info
  | info, file :: files =>
    match load_data_from_file s file missing_ok with
    | .error e => .error e
    | .ok d =>
      match d.assets with
      | none => .error .keyError
      | some a =>
        load_assets_loop s missing_ok
          { info with assets := dictUnion info.assets a } files

/-- `AssetsInfo.load_from_files`, line 40. -/
def load_from_files (s : Snapshot) (files : List String)
    (missing_ok : Bool) : Except PyError AssetsInfo :=
  load_assets_loop s missing_ok AssetsInfo.empty files

/-- `AssetsInfo.save`, line 58: `json.dump(self.__dict__, ...)` writes a
document holding exactly the two fields. -/
def AssetsInfo.save (info : AssetsInfo) : MetadataDoc :=
  { manifest_hash := some info.manifest_hash, assets := some info.assets }

/-- Accumulator of `AssetsState._categorize_info_files`, line 309. -/
structure InfoCat where
  good : List String
  outdated : List String
  missing : List String
  rest : List String
deriving Repr, DecidableEq

/-- One iteration of the manifest loop of `_categorize_info_files`,
lines 319-335.  `rest.remove(info_file)` removes the first occurrence
(`List.erase`); in every reachable state the file is present, so the
`ValueError` branch of `list.remove` does not arise. -/
def categorize_info_step (s : Snapshot) (acc : InfoCat) (project : String) :
    InfoCat :=
  let info_file := infoFileName project
  if isCacheFile s info_file then
    let actual := s.manifestHash project
    let expected := (loadExisting s info_file).manifest_hash
    if actual == expected then
      { acc with good := acc.good ++ [info_file],
                 rest := acc.rest.erase info_file }
    else
      { acc with outdated := acc.outdated ++ [info_file],
                 rest := acc.rest.erase info_file }
  else
    { acc with missing := acc.missing ++ [info_file] }

/-- The manifest loop of `_categorize_info_files`. -/
def categorize_info_loop (s : Snapshot) : InfoCat → List String → InfoCat
  | acc, [] => acc
  | acc, project :: ms =>
    categorize_info_loop s (categorize_info_step s acc project) ms

/-- `AssetsState._categorize_info_files`, line 309: iterate over
`get_manifest_files()` starting from the full info-file pool. -/
def categorize_info_files (s : Snapshot) (info_files : List String) :
    InfoCat :=
  categorize_info_loop s
    { good := [], outdated := [], missing := [], rest := info_files }
    s.manifestNames

/-- Accumulator of `AssetsState._categorize_asset_files`, line 340. -/
structure AssetCat where
  good : List String
  missing : List String
  rest : List String
deriving Repr, DecidableEq

/-- One iteration of the key loop of `_categorize_asset_files`,
lines 349-357. -/
def categorize_asset_step (s : Snapshot) (acc : AssetCat)
    (asset_hash : String) : AssetCat :=
  if isCacheFile s asset_hash then
    { acc with good := acc.good ++ [asset_hash],
               rest := acc.rest.erase asset_hash }
  else
    { acc with missing := acc.missing ++ [asset_hash] }

/-- The key loop of `_categorize_asset_files`. -/
def categorize_asset_loop (s : Snapshot) : AssetCat → List String → AssetCat
  | acc, [] => acc
  | acc, k :: ks =>
    categorize_asset_loop s (categorize_asset_step s acc k) ks

/-- `AssetsState._categorize_asset_files`, line 340: iterate over the keys
of the trusted asset map starting from the full asset-file pool. -/
def categorize_asset_files (s : Snapshot) (asset_files : List String)
    (assets_info : AssetsInfo) : AssetCat :=
  categorize_asset_loop s
    { good := [], missing := [], rest := asset_files }
    (dictKeys assets_info.assets)

/-- `AssetsState`, line 236 (the fields the dataclass carries). -/
structure AssetsState where
  asset_files : List String
  good_asset_files : List String
  missing_asset_files : List String
  extra_asset_files : List String
  info_files : List String
  good_info_files : List String
  outdated_info_files : List String
  missing_info_files : List String
  extra_info_files : List String
  other_files : List String
  good_assets_info : AssetsInfo
deriving Repr, DecidableEq

/-- `AssetsState.gen_assets_state`, line 253 (on a snapshot, so both
directories exist; their absence is a `sys.exit` before any of this runs). -/
def gen_assets_state (s : Snapshot) : Except PyError AssetsState :=
  let t := get_asset_cache_dir_files s
  let ic := categorize_info_files s t.2.1
  match load_from_files s ic.good false with
  | .error e => .error e
  | .ok good_assets_info =>
    let ac := categorize_asset_files s t.1 good_assets_info
    .ok { asset_files := t.1,
          good_asset_files := ac.good,
          missing_asset_files := ac.missing,
          extra_asset_files := ac.rest,
          info_files := t.2.1,
          good_info_files := ic.good,
          outdated_info_files := ic.outdated,
          missing_info_files := ic.missing,
          extra_info_files := ic.rest,
          other_files := t.2.2,
          good_assets_info := good_assets_info }

/-- Observable outcome of `cleanup_assets`: either `stop(message)` with no
file deleted, or the deletion (and report) of exactly the listed files. -/
inductive CleanupResult
  | stopped (message : String)
  | deleted (files : List String)
deriving Repr, DecidableEq

/-- `cleanup_assets`, line 435. -/
def cleanup_assets (s : Snapshot) : Except PyError CleanupResult :=
  match gen_assets_state s with
  | .error e => .error e
  | .ok state =>
    let files_to_process :=
      state.missing_asset_files ++ state.missing_info_files ++
        state.outdated_info_files
    let files_to_delete :=
      state.extra_asset_files ++ state.extra_info_files ++ state.other_files
    if files_to_process ≠ [] then
      .ok (.stopped "Error: there are files to process")
    else if files_to_delete = [] then
      .ok (.stopped "No files to delete")
    else
      .ok (.deleted files_to_delete)

/-! ### The installer-output parser

`AssetDownloader._OUTPUT_ASSET_BASE_PATTERN` is the regular expression
`\S+/([0-9a-f]+)\s.*?authoritative source ([^\s,]+)` (line 69); the success
pattern prepends the literal `using asset cache ` and the missing pattern
prepends `Couldn't open file ` (lines 70-71).  The matcher below implements
Python `re` semantics for exactly this pattern shape: leftmost match wins,
greedy pieces backtrack from the longest candidate, the lazy `.*?` grows
from the empty candidate, and `.` does not match a newline.  `\s` is taken
as ASCII whitespace (the installer output is ASCII). -/

/-- Python `\s` on the ASCII range. -/
def isPySpace (c : Char) : Bool :=
  c == ' ' || c == '\t' || c == '\n' || c == '\r' ||
    c == '\x0b' || c == '\x0c'

/-- Python `\S`. -/
def isNonSpace (c : Char) : Bool := !(isPySpace c)

/-- Python `[^\s,]`. -/
def isUrlTokenChar (c : Char) : Bool := !(isPySpace c) && c != ','

/-- Python `.` without `DOTALL`. -/
def isDotChar (c : Char) : Bool := c != '\n'

/-- Drop a literal from the front of the text, or fail. -/
def dropLit : List Char → List Char → Option (List Char)
  | [], cs => some cs
  | _ :: _, [] => none
  | l :: ls, c :: cs => if c = l then dropLit ls cs else none

/-- The candidate splits of a greedy `p+`: every nonempty prefix of the
maximal run of `p`-characters, longest first, each with the rest of the
text. -/
def plusSplits (p : Char → Bool) (cs : List Char) :
    List (List Char × List Char) :=
  let m := (cs.takeWhile p).length
  (List.range m).map (fun i => (cs.take (m - i), cs.drop (m - i)))

/-- The candidate splits of a lazy `p*?`: every prefix of the maximal run of
`p`-characters, shortest first. -/
def starSplits (p : Char → Bool) (cs : List Char) :
    List (List Char × List Char) :=
  let m := (cs.takeWhile p).length
  (List.range (m + 1)).map (fun n => (cs.take n, cs.drop n))

/-- `authoritative source ` (inside the base pattern). -/
def authLit : List Char := "authoritative source ".toList

/-- Match `\S+/([0-9a-f]+)\s.*?authoritative source ([^\s,]+)` at the start
of the text, returning the two captured groups and the text after the match.
The nesting of `findSome?` over the candidate lists realizes Python's
backtracking order. -/
def matchBaseFrom (cs : List Char) : Option (String × String × List Char) :=
  (plusSplits isNonSpace cs).findSome? fun s1 =>
    match s1.2 with
    | '/' :: r2 =>
      (plusSplits isLowerHexChar r2).findSome? fun g1 =>
        match g1.2 with
        | c :: r4 =>
          if isPySpace c then
            (starSplits isDotChar r4).findSome? fun dots =>
              match dropLit authLit dots.2 with
              | some r6 =>
                match plusSplits isUrlTokenChar r6 with
                | g2 :: _ => some (String.mk g1.1, String.mk g2.1, g2.2)
                | [] => none
              | none => none
          else none
        | [] => none
    | _ => none

/-- Attempt the full pattern (leading literal, then the base pattern) at the
start of the text. -/
def tryMatchAt (lit : List Char) (cs : List Char) :
    Option (String × String × List Char) :=
  match dropLit lit cs with
  | none => none
  | some r1 => matchBaseFrom r1

/-- `re.finditer`: scan left to right, emit each leftmost match and resume
after its end (every match consumes at least the nonempty leading literal,
so the fuel `cs.length` given by `findIter` never runs out). -/
def findIterAux (lit : List Char) : Nat → List Char → List (String × String)
  | 0, _ => []
  | _, [] => []
  | fuel + 1, cs@(_ :: rest) =>
    match tryMatchAt lit cs with
    | some (g1, g2, after) => (g1, g2) :: findIterAux lit fuel after
    | none => findIterAux lit fuel rest

/-- All matches of the pattern with the given leading literal, in text
order, as (first group, second group) pairs. -/
def findIter (lit : List Char) (cs : List Char) : List (String × String) :=
  findIterAux lit cs.length cs

/-- `re.search`: the leftmost match only. -/
def reSearch (lit : List Char) : List Char → Option (String × String)
  | [] => none
  | cs@(_ :: rest) =>
    match tryMatchAt lit cs with
    | some (g1, g2, _) => some (g1, g2)
    | none => reSearch lit rest

/-- `using asset cache ` (line 70). -/
def successLit : List Char := "using asset cache ".toList

/-- `Couldn't open file ` (line 71). -/
def missingLit : List Char := "Couldn't open file ".toList

/-- The loop of `AssetDownloader._extract_downloaded_assets_info`,
lines 158-161: `downloaded_info[sha512] = url` for each match in order. -/
def insertMatches : AssetDict → List (String × String) → AssetDict
  | d, [] => d
  | d, (h, u) :: ms => insertMatches (dictInsert d h u) ms

/-- `AssetDownloader._extract_downloaded_assets_info`, line 155. -/
def extract_downloaded_assets_info (output_text : String) : AssetDict :=
  insertMatches [] (findIter successLit output_text.toList)

/-- `AssetDownloader._extract_missed_asset_info`, line 165. -/
def extract_missed_asset_info (output_text : String) :
    Option (String × String) :=
  reSearch missingLit output_text.toList

/-! ### The download step (`AssetDownloader.download`, line 120) -/

/-- The control-flow outcome of one `download()` call: normal return of the
elapsed time, `MissingAssetError(asset_hash, asset_url)`, or
`AssetDownloadError`. -/
inductive DownloadResult
  | success (elapsed : Nat)
  | missingAssetError (asset_hash : String) (asset_url : String)
  | assetDownloadError
deriving Repr, DecidableEq

/-- One `download()` call's outcome together with what it persisted:
`saved` is the record written to the metadata file (`none` when the call
raised before reaching `save`). -/
structure DownloadStep where
  result : DownloadResult
  saved : Option AssetsInfo
deriving Repr, DecidableEq

/-- `AssetDownloader.download`, lines 120-131, as a function of the
in-memory record built by `prepare` and the installer run's output text,
exit code and elapsed time: merge the parsed success records into the
record, then raise on a non-zero exit code (`_handle_download_error`,
line 172) without saving, else save the merged record and return the
elapsed time. -/
def download (assets_info : AssetsInfo) (output_text : String)
    (exit_code : Nat) (elapsed_time : Nat) : DownloadStep :=
  let downloaded := extract_downloaded_assets_info output_text
  let merged :=
    { assets_info with assets := dictUnion assets_info.assets downloaded }
  if exit_code ≠ 0 then
    match extract_missed_asset_info output_text with
    | some (h, u) => { result := .missingAssetError h u, saved := none }
    | none => { result := .assetDownloadError, saved := none }
  else
    { result := .success elapsed_time, saved := some merged }

/-- Well-formedness of a snapshot, as guaranteed by the platform for the
states the program can actually read: a directory listing has no duplicate
names; `MANIFEST_DIR.glob('*.json')` yields distinct stems, each of which
makes a valid metadata file name (nonempty — a glob never returns a bare
`.json` — and newline-free); and asset hashes recorded in metadata
documents are 128-character lowercase-hex names. -/
structure WFSnapshot (s : Snapshot) : Prop where
  cache_nodup : s.cacheFileNames.Nodup
  manifests_nodup : s.manifestNames.Nodup
  manifests_info : ∀ p ∈ s.manifestNames, is_info_file (infoFileName p) = true
  keys_asset : ∀ f a, (s.infoData f).assets = some a →
    ∀ k ∈ dictKeys a, is_asset_file k = true

/-! ### Dictionary lemmas -/

theorem any_key_iff (d : AssetDict) (k : String) :
    d.any (fun p => p.1 == k) = true ↔ k ∈ dictKeys d := by
  rw [List.any_eq_true]
  simp only [dictKeys, List.mem_map, beq_iff_eq]

theorem mem_dictInsert (d : AssetDict) (k v h u : String) :
    (h, u) ∈ dictInsert d k v ↔
      (h = k ∧ u = v) ∨ (h ≠ k ∧ (h, u) ∈ d) := by
  unfold dictInsert
  by_cases hmem : d.any (fun p => p.1 == k) = true
  · rw [if_pos hmem]
    rw [List.any_eq_true] at hmem
    obtain ⟨q, hq, hqk⟩ := hmem
    rw [beq_iff_eq] at hqk
    simp only [List.mem_map]
    constructor
    · rintro ⟨p, hp, hfp⟩
      by_cases hpk : p.1 = k
      · rw [if_pos (by simpa [beq_iff_eq] using hpk)] at hfp
        injection hfp with h1 h2
        exact Or.inl ⟨h1.symm, h2.symm⟩
      · rw [if_neg (by simpa [beq_iff_eq] using hpk)] at hfp
        subst hfp
        exact Or.inr ⟨by simpa using hpk, hp⟩
    · rintro (⟨rfl, rfl⟩ | ⟨hk, hmem2⟩)
      · exact ⟨q, hq, by rw [if_pos (by simpa [beq_iff_eq] using hqk)]⟩
      · exact ⟨(h, u), hmem2, by rw [if_neg (by simpa [beq_iff_eq] using hk)]⟩
  · rw [if_neg hmem]
    rw [Bool.not_eq_true, List.any_eq_false] at hmem
    simp only [List.mem_append, List.mem_singleton, Prod.mk.injEq]
    constructor
    · rintro (hmem2 | ⟨rfl, rfl⟩)
      · refine Or.inr ⟨fun hk => ?_, hmem2⟩
        exact absurd (by simpa [beq_iff_eq] using hk) (hmem (h, u) hmem2)
      · exact Or.inl ⟨rfl, rfl⟩
    · rintro (⟨rfl, rfl⟩ | ⟨_, hmem2⟩)
      · exact Or.inr ⟨rfl, rfl⟩
      · exact Or.inl hmem2

theorem dictKeys_dictInsert (d : AssetDict) (k v : String) :
    dictKeys (dictInsert d k v) =
      if k ∈ dictKeys d then dictKeys d else dictKeys d ++ [k] := by
  unfold dictInsert
  by_cases hmem : d.any (fun p => p.1 == k) = true
  · rw [if_pos hmem, if_pos ((any_key_iff d k).mp hmem)]
    simp only [dictKeys, List.map_map]
    refine List.map_congr_left fun p _ => ?_
    by_cases hpk : p.1 = k <;> simp [hpk]
  · rw [if_neg hmem, if_neg (fun hk => hmem ((any_key_iff d k).mpr hk))]
    simp [dictKeys]

theorem mem_dictKeys_dictInsert (d : AssetDict) (k v k' : String) :
    k' ∈ dictKeys (dictInsert d k v) ↔ k' ∈ dictKeys d ∨ k' = k := by
  rw [dictKeys_dictInsert]
  split
  · next hk =>
    exact ⟨Or.inl, fun hh => hh.elim id (fun he => he ▸ hk)⟩
  · simp [List.mem_append]

theorem nodup_dictKeys_dictInsert (d : AssetDict) (k v : String)
    (hd : (dictKeys d).Nodup) : (dictKeys (dictInsert d k v)).Nodup := by
  rw [dictKeys_dictInsert]
  split
  · exact hd
  · next hk => simp [List.nodup_append, hd, hk]

theorem mem_dictKeys_dictUnion (d e : AssetDict) (k : String) :
    k ∈ dictKeys (dictUnion d e) ↔ k ∈ dictKeys d ∨ k ∈ dictKeys e := by
  induction e generalizing d with
  | nil => simp [dictUnion, dictKeys]
  | cons p tl ih =>
    show k ∈ dictKeys (dictUnion (dictInsert d p.1 p.2) tl) ↔ _
    rw [ih, mem_dictKeys_dictInsert]
    simp [dictKeys, or_assoc]

theorem nodup_dictKeys_dictUnion (d e : AssetDict)
    (hd : (dictKeys d).Nodup) : (dictKeys (dictUnion d e)).Nodup := by
  induction e generalizing d with
  | nil => exact hd
  | cons p tl ih =>
    exact ih (dictInsert d p.1 p.2) (nodup_dictKeys_dictInsert d p.1 p.2 hd)

/-! ### Parser lemmas -/

theorem mem_insertMatches (ms : List (String × String)) (d : AssetDict)
    (h u : String) :
    (h, u) ∈ insertMatches d ms ↔
      (match (ms.filter (fun m => m.1 == h)).getLast? with
       | some m => u = m.2
       | none => (h, u) ∈ d) := by
  induction ms generalizing d with
  | nil => simp [insertMatches]
  | cons m tl ih =>
    obtain ⟨k, v⟩ := m
    show (h, u) ∈ insertMatches (dictInsert d k v) tl ↔ _
    rw [ih]
    rw [List.filter_cons]
    by_cases hk : k = h
    · rw [if_pos (by simpa [beq_iff_eq] using hk)]
      cases hrest : tl.filter (fun m => m.1 == h) with
      | nil =>
        subst hk
        simp [mem_dictInsert]
      | cons q qs =>
        rw [List.getLast?_cons_cons,
          List.getLast?_eq_getLast_of_ne_nil (List.cons_ne_nil q qs)]
    · rw [if_neg (by simpa [beq_iff_eq] using hk)]
      cases hrest : tl.filter (fun m => m.1 == h) with
      | nil =>
        have hne : h ≠ k := fun hh => hk hh.symm
        simp [mem_dictInsert, hne]
      | cons q qs =>
        rw [List.getLast?_eq_getLast_of_ne_nil (List.cons_ne_nil q qs)]

theorem reSearch_eq_head_of_findIterAux (lit : List Char) (fuel : Nat)
    (cs : List Char) (hfuel : cs.length ≤ fuel) :
    reSearch lit cs = (findIterAux lit fuel cs).head? := by
  induction fuel generalizing cs with
  | zero =>
    have : cs = [] := List.length_eq_zero.mp (Nat.le_zero.mp hfuel)
    subst this
    rfl
  | succ fuel ih =>
    cases cs with
    | nil => rfl
    | cons c rest =>
      show reSearch lit (c :: rest) = _
      rw [reSearch, findIterAux]
      cases htry : tryMatchAt lit (c :: rest) with
      | none =>
        simp only
        exact ih rest (Nat.le_of_succ_le_succ hfuel)
      | some g =>
        obtain ⟨g1, g2, after⟩ := g
        simp only [List.head?_cons]

/-! ### The claims -/

/-- C7: for every installer output text, the success extractor returns a
map with an entry `hash -> url` exactly for the matches of the success
pattern found in the text, a later match with the same hash overwriting an
earlier one: `(h, u)` is an entry of the returned map iff the last success
match whose first group is `h` is `(h, u)`. -/
theorem C7_success_extractor (output_text : String) (h u : String) :
    (h, u) ∈ extract_downloaded_assets_info output_text ↔
      ((findIter successLit output_text.toList).filter
        (fun m => m.1 == h)).getLast? = some (h, u) := by
  unfold extract_downloaded_assets_info
  rw [mem_insertMatches]
  cases hlast : ((findIter successLit output_text.toList).filter
      (fun m => m.1 == h)).getLast? with
  | none => simp
  | some m =>
    simp only
    have hm : m ∈ (findIter successLit output_text.toList).filter
        (fun m => m.1 == h) := by
      obtain ⟨hne, hl⟩ := List.mem_getLast?_eq_getLast (l := _) (x := m)
        (by rw [hlast]; rfl)
      exact hl ▸ List.getLast_mem hne
    have hmh : m.1 = h := by simpa [beq_iff_eq] using List.of_mem_filter hm
    constructor
    · rintro rfl
      rw [← hmh]
    · intro hsome
      injection hsome with hsome
      rw [hsome]

/-- C8: for every installer output text, the missing-asset extractor
returns exactly the first match (hash and URL) of the missing pattern, and
`none` when the pattern does not match; on empty input the parser does not
fail: the success map is empty and the missing record is `none`. -/
theorem C8_missing_extractor (output_text : String) :
    extract_missed_asset_info output_text =
      (findIter missingLit output_text.toList).head? ∧
    extract_missed_asset_info "" = none ∧
    extract_downloaded_assets_info "" = [] := by
  refine ⟨?_, rfl, rfl⟩
  exact reSearch_eq_head_of_findIterAux missingLit _ _ le_rfl

/-- C5: in `AssetDownloader.download`, a non-zero installer exit code with
a parsed missing-asset record raises `MissingAssetError` carrying exactly
the parsed hash and URL; a non-zero exit code without one raises
`AssetDownloadError`; in both failure cases nothing is persisted.  With
exit code 0 the merged record is saved and the elapsed time returned. -/
theorem C5_download_outcomes (info : AssetsInfo) (output_text : String)
    (exit_code elapsed : Nat) :
    (exit_code ≠ 0 →
      (∀ h u, extract_missed_asset_info output_text = some (h, u) →
        download info output_text exit_code elapsed =
          { result := .missingAssetError h u, saved := none }) ∧
      (extract_missed_asset_info output_text = none →
        download info output_text exit_code elapsed =
          { result := .assetDownloadError, saved := none }) ∧
      (download info output_text exit_code elapsed).saved = none) ∧
    (exit_code = 0 →
      download info output_text exit_code elapsed =
        { result := .success elapsed,
          saved :=
            some { info with
                   assets :=
                     dictUnion info.assets
                       (extract_downloaded_assets_info output_text) } }) := by
  constructor
  · intro hec
    unfold download
    rw [if_pos hec]
    refine ⟨fun h u hmiss => ?_, fun hmiss => ?_, ?_⟩
    · rw [hmiss]
    · rw [hmiss]
    · cases hmiss : extract_missed_asset_info output_text with
      | none => rfl
      | some g => obtain ⟨h, u⟩ := g; rfl
  · intro hec
    unfold download
    rw [if_neg (by simp [hec])]

/-- Witness for C5: a concrete failing run — output holding one missing
line, exit code 1 — yields `MissingAssetError` with the parsed hash and
URL and persists nothing. -/
theorem C5_download_outcomes_witness :
    download AssetsInfo.empty
      "Couldn't open file x/ab c authoritative source u" 1 5 =
      { result := .missingAssetError "ab" "u", saved := none } :=
  ((C5_download_outcomes AssetsInfo.empty
    "Couldn't open file x/ab c authoritative source u" 1 5).1
    (by decide)).1 "ab" "u" (by decide)

/-- C9: loading a well-formed metadata document (both fields present),
saving the loaded record and loading it back yields the record loaded from
the original file: serialization round-trips losslessly on the two defined
fields. -/
theorem C9_metadata_roundtrip (s : Snapshot) (f : String)
    (hf : isCacheFile s f = true) (h : String) (a : AssetDict)
    (_hh : (s.infoData f).manifest_hash = some h)
    (_ha : (s.infoData f).assets = some a)
    (s' : Snapshot) (g : String) (hg : isCacheFile s' g = true)
    (hsave : s'.infoData g = AssetsInfo.save (loadExisting s f)) :
    load_from_file s f false = .ok (loadExisting s f) ∧
    load_from_file s' g false = load_from_file s f false := by
  have hround : ∀ info : AssetsInfo,
      applyDoc AssetsInfo.empty (AssetsInfo.save info) = info := by
    intro info
    cases info
    rfl
  constructor
  · simp [load_from_file, load_data_from_file, hf, loadExisting]
  · simp [load_from_file, load_data_from_file, hf, hg, hsave, hround,
      loadExisting]

/-- Witness for C9: a concrete well-formed metadata document round-trips. -/
theorem C9_metadata_roundtrip_witness :
    load_from_file
      ⟨["_p.json"], fun _ => ⟨some "h", some [("k", "u")]⟩, [], fun _ => ""⟩
      "_p.json" false = .ok { manifest_hash := "h", assets := [("k", "u")] } :=
  (C9_metadata_roundtrip
    ⟨["_p.json"], fun _ => ⟨some "h", some [("k", "u")]⟩, [], fun _ => ""⟩
    "_p.json" rfl "h" [("k", "u")] rfl rfl
    ⟨["_p.json"], fun _ => ⟨some "h", some [("k", "u")]⟩, [], fun _ => ""⟩
    "_p.json" rfl rfl).1

/-- C6: `load_from_files` with `missing_ok=True` does not skip a missing
file's absent `assets` key: `_load_data_from_file` returns `\x7b\x7d` for
the missing file, and the caller's subscript `loaded_data['assets']` then
raises `KeyError` — the call fails instead of treating the missing file as
an empty map.  With `missing_ok=False` the same call fails with
`FileNotFoundError`, as specified. -/
theorem C6_load_many_missing_raises :
    load_from_files
      ⟨[], fun _ => ⟨none, none⟩, [], fun _ => ""⟩
      ["_absent.json"] true = .error .keyError ∧
    load_from_files
      ⟨[], fun _ => ⟨none, none⟩, [], fun _ => ""⟩
      ["_absent.json"] false = .error .fileNotFound := by
  exact ⟨rfl, rfl⟩

/-! ### Metadata-categorization lemmas -/

theorem info_step_good_sub (s : Snapshot) (acc : InfoCat) (p : String) :
    acc.good ⊆ (categorize_info_step s acc p).good := by
  unfold categorize_info_step
  dsimp only
  split_ifs <;> simp [List.subset_append_left]

theorem info_step_outdated_sub (s : Snapshot) (acc : InfoCat) (p : String) :
    acc.outdated ⊆ (categorize_info_step s acc p).outdated := by
  unfold categorize_info_step
  dsimp only
  split_ifs <;> simp [List.subset_append_left]

theorem info_step_missing_sub (s : Snapshot) (acc : InfoCat) (p : String) :
    acc.missing ⊆ (categorize_info_step s acc p).missing := by
  unfold categorize_info_step
  dsimp only
  split_ifs <;> simp [List.subset_append_left]

theorem info_loop_good_sub (s : Snapshot) (ms : List String) :
    ∀ acc : InfoCat, acc.good ⊆ (categorize_info_loop s acc ms).good := by
  induction ms with
  | nil => exact fun acc x hx => hx
  | cons q tl ih =>
    exact fun acc x hx => ih _ (info_step_good_sub s acc q hx)

theorem info_loop_outdated_sub (s : Snapshot) (ms : List String) :
    ∀ acc : InfoCat, acc.outdated ⊆ (categorize_info_loop s acc ms).outdated := by
  induction ms with
  | nil => exact fun acc x hx => hx
  | cons q tl ih =>
    exact fun acc x hx => ih _ (info_step_outdated_sub s acc q hx)

theorem info_loop_missing_sub (s : Snapshot) (ms : List String) :
    ∀ acc : InfoCat, acc.missing ⊆ (categorize_info_loop s acc ms).missing := by
  induction ms with
  | nil => exact fun acc x hx => hx
  | cons q tl ih =>
    exact fun acc x hx => ih _ (info_step_missing_sub s acc q hx)

theorem info_loop_missing_of (s : Snapshot) (ms : List String) :
    ∀ acc : InfoCat, ∀ p ∈ ms, isCacheFile s (infoFileName p) = false →
      infoFileName p ∈ (categorize_info_loop s acc ms).missing := by
  induction ms with
  | nil => simp
  | cons q tl ih =>
    intro acc p hp habs
    rcases List.mem_cons.mp hp with rfl | hp'
    · refine info_loop_missing_sub s tl _ ?_
      unfold categorize_info_step
      rw [if_neg (by simp [habs])]
      simp
    · exact ih _ p hp' habs

theorem info_loop_good_of (s : Snapshot) (ms : List String) :
    ∀ acc : InfoCat, ∀ p ∈ ms, isCacheFile s (infoFileName p) = true →
      s.manifestHash p = (loadExisting s (infoFileName p)).manifest_hash →
      infoFileName p ∈ (categorize_info_loop s acc ms).good := by
  induction ms with
  | nil => simp
  | cons q tl ih =>
    intro acc p hp hpres heq
    rcases List.mem_cons.mp hp with rfl | hp'
    · refine info_loop_good_sub s tl _ ?_
      unfold categorize_info_step
      rw [if_pos hpres, if_pos (by simpa [beq_iff_eq] using heq)]
      simp
    · exact ih _ p hp' hpres heq

theorem info_loop_outdated_of (s : Snapshot) (ms : List String) :
    ∀ acc : InfoCat, ∀ p ∈ ms, isCacheFile s (infoFileName p) = true →
      s.manifestHash p ≠ (loadExisting s (infoFileName p)).manifest_hash →
      infoFileName p ∈ (categorize_info_loop s acc ms).outdated := by
  induction ms with
  | nil => simp
  | cons q tl ih =>
    intro acc p hp hpres hne
    rcases List.mem_cons.mp hp with rfl | hp'
    · refine info_loop_outdated_sub s tl _ ?_
      unfold categorize_info_step
      rw [if_pos hpres, if_neg (by simpa [beq_iff_eq] using hne)]
      simp
    · exact ih _ p hp' hpres hne

theorem info_step_rest_mem (s : Snapshot) (acc : InfoCat) (p f : String)
    (hf : f ∈ acc.rest) (hne : f ≠ infoFileName p) :
    f ∈ (categorize_info_step s acc p).rest := by
  unfold categorize_info_step
  dsimp only
  split_ifs <;> simp_all [List.mem_erase_of_ne hne]

theorem info_loop_rest_mem (s : Snapshot) (ms : List String) :
    ∀ acc : InfoCat, ∀ f, f ∈ acc.rest →
      (∀ q ∈ ms, f ≠ infoFileName q) →
      f ∈ (categorize_info_loop s acc ms).rest := by
  induction ms with
  | nil => exact fun acc f hf _ => hf
  | cons q tl ih =>
    intro acc f hf hne
    exact ih _ f
      (info_step_rest_mem s acc q f hf (hne q (List.mem_cons_self q tl)))
      (fun r hr => hne r (List.mem_cons_of_mem q hr))

/-- C2: for each manifest project `p`, the reconciler classifies the
metadata file `_<p>.json` as missing when it is absent from the cache
directory, as good when present with its stored `manifest_hash` equal to
the manifest's current hash, as outdated when present with a differing
stored hash; and every metadata-shaped cache file matching no manifest's
name is classified extra. -/
theorem C2_info_file_classification (s : Snapshot) (p f : String) :
    (p ∈ s.manifestNames →
      (isCacheFile s (infoFileName p) = false →
        infoFileName p ∈ (categorize_info_files s
          (get_asset_cache_dir_files s).2.1).missing) ∧
      (isCacheFile s (infoFileName p) = true →
        s.manifestHash p = (loadExisting s (infoFileName p)).manifest_hash →
        infoFileName p ∈ (categorize_info_files s
          (get_asset_cache_dir_files s).2.1).good) ∧
      (isCacheFile s (infoFileName p) = true →
        s.manifestHash p ≠ (loadExisting s (infoFileName p)).manifest_hash →
        infoFileName p ∈ (categorize_info_files s
          (get_asset_cache_dir_files s).2.1).outdated)) ∧
    (f ∈ (get_asset_cache_dir_files s).2.1 →
      (∀ q ∈ s.manifestNames, f ≠ infoFileName q) →
      f ∈ (categorize_info_files s (get_asset_cache_dir_files s).2.1).rest) := by
  constructor
  · intro hp
    refine ⟨fun habs => ?_, fun hpres heq => ?_, fun hpres hne => ?_⟩
    · exact info_loop_missing_of s s.manifestNames _ p hp habs
    · exact info_loop_good_of s s.manifestNames _ p hp hpres heq
    · exact info_loop_outdated_of s s.manifestNames _ p hp hpres hne
  · intro hf hnot
    exact info_loop_rest_mem s s.manifestNames _ f hf hnot

/-- Witness for C2: on a snapshot with one manifest `p` (unchanged hash)
and an orphaned `_q.json`, the reconciler marks `_p.json` good and leaves
`_q.json` in the extra pool. -/
theorem C2_info_file_classification_witness :
    infoFileName "p" ∈ (categorize_info_files
      ⟨["_p.json", "_q.json"], fun _ => ⟨some "h", some []⟩, ["p"],
        fun _ => "h"⟩
      (get_asset_cache_dir_files
        ⟨["_p.json", "_q.json"], fun _ => ⟨some "h", some []⟩, ["p"],
          fun _ => "h"⟩).2.1).good ∧
    "_q.json" ∈ (categorize_info_files
      ⟨["_p.json", "_q.json"], fun _ => ⟨some "h", some []⟩, ["p"],
        fun _ => "h"⟩
      (get_asset_cache_dir_files
        ⟨["_p.json", "_q.json"], fun _ => ⟨some "h", some []⟩, ["p"],
          fun _ => "h"⟩).2.1).rest :=
  ⟨((C2_info_file_classification
      ⟨["_p.json", "_q.json"], fun _ => ⟨some "h", some []⟩, ["p"],
        fun _ => "h"⟩ "p" "_q.json").1 (by decide)).2.1 rfl rfl,
   (C2_info_file_classification
      ⟨["_p.json", "_q.json"], fun _ => ⟨some "h", some []⟩, ["p"],
        fun _ => "h"⟩ "p" "_q.json").2 (by decide) (by decide)⟩

/-- C10: a cache file named exactly `_.json` is not recognized as a
metadata file (the captured project name is empty, hence falsy), so
reconciliation puts it in the `other` category and a pruning run that
reaches deletion deletes it. -/
theorem C10_empty_project_info_name (s : Snapshot) (st : AssetsState)
    (hgen : gen_assets_state s = .ok st)
    (hmem : "_.json" ∈ s.cacheFileNames) :
    is_info_file "_.json" = false ∧
    "_.json" ∈ st.other_files ∧
    "_.json" ∉ st.info_files ∧
    (∀ l, cleanup_assets s = .ok (.deleted l) → "_.json" ∈ l) := by
  have hinfo : is_info_file "_.json" = false := by decide
  have hasset : is_asset_file "_.json" = false := by decide
  have hgen0 := hgen
  unfold gen_assets_state at hgen
  dsimp only at hgen
  cases hload : load_from_files s
      (categorize_info_files s (get_asset_cache_dir_files s).2.1).good
      false with
  | error e => rw [hload] at hgen; cases hgen
  | ok gi =>
    rw [hload] at hgen
    injection hgen with hgen
    subst hgen
    refine ⟨hinfo, ?_, ?_, ?_⟩
    · show "_.json" ∈ (get_asset_cache_dir_files s).2.2
      simp [get_asset_cache_dir_files, partition_by_predicate,
        List.mem_filter, hmem, hinfo, hasset]
    · show "_.json" ∉ (get_asset_cache_dir_files s).2.1
      simp [get_asset_cache_dir_files, partition_by_predicate,
        List.mem_filter, hinfo]
    · intro l hdel
      unfold cleanup_assets at hdel
      rw [hgen0] at hdel
      dsimp only at hdel
      split_ifs at hdel with h1 h2
      · cases hdel
      · cases hdel
      · injection hdel with hdel
        injection hdel with hdel
        subst hdel
        refine List.mem_append_right _ ?_
        show "_.json" ∈ (get_asset_cache_dir_files s).2.2
        simp [get_asset_cache_dir_files, partition_by_predicate,
          List.mem_filter, hmem, hinfo, hasset]

/-- Witness for C10: a cache containing only `_.json` (and no manifests)
classifies it as other and the cleanup run deletes it. -/
theorem C10_empty_project_info_name_witness :
    is_info_file "_.json" = false ∧ "_.json" ∈ (["_.json"] : List String) :=
  ⟨(C10_empty_project_info_name
      ⟨["_.json"], fun _ => ⟨none, none⟩, [], fun _ => ""⟩
      { asset_files := [], good_asset_files := [],
        missing_asset_files := [], extra_asset_files := [],
        info_files := [], good_info_files := [], outdated_info_files := [],
        missing_info_files := [], extra_info_files := [],
        other_files := ["_.json"], good_assets_info := AssetsInfo.empty }
      rfl (by decide)).1,
   (C10_empty_project_info_name
      ⟨["_.json"], fun _ => ⟨none, none⟩, [], fun _ => ""⟩
      { asset_files := [], good_asset_files := [],
        missing_asset_files := [], extra_asset_files := [],
        info_files := [], good_info_files := [], outdated_info_files := [],
        missing_info_files := [], extra_info_files := [],
        other_files := ["_.json"], good_assets_info := AssetsInfo.empty }
      rfl (by decide)).2.2.2 ["_.json"] rfl⟩

/-! ### Asset-categorization lemmas -/

theorem load_data_doc (s : Snapshot) (file : String) (mo : Bool)
    (d : MetadataDoc) (h : load_data_from_file s file mo = .ok d) :
    d = s.infoData file ∨ d = { manifest_hash := none, assets := none } := by
  unfold load_data_from_file at h
  split_ifs at h
  · injection h with h
    exact Or.inl h.symm
  · injection h with h
    exact Or.inr h.symm

theorem load_assets_loop_keys (s : Snapshot) (mo : Bool)
    (files : List String) :
    ∀ acc info, load_assets_loop s mo acc files = .ok info →
      ∀ k ∈ dictKeys info.assets,
        k ∈ dictKeys acc.assets ∨
        ∃ f ∈ files, ∃ a, (s.infoData f).assets = some a ∧ k ∈ dictKeys a := by
  induction files with
  | nil =>
    intro acc info h k hk
    injection h with h
    subst h
    exact Or.inl hk
  | cons file tl ih =>
    intro acc info h k hk
    unfold load_assets_loop at h
    cases hld : load_data_from_file s file mo with
    | error e => rw [hld] at h; cases h
    | ok d =>
      rw [hld] at h
      dsimp only at h
      cases hda : d.assets with
      | none => rw [hda] at h; cases h
      | some a =>
        rw [hda] at h
        dsimp only at h
        rcases ih _ info h k hk with hacc | ⟨f, hf, a', ha', hk'⟩
        · rcases (mem_dictKeys_dictUnion _ _ k).mp hacc with h1 | h2
          · exact Or.inl h1
          · rcases load_data_doc s file mo d hld with rfl | rfl
            · exact Or.inr ⟨file, List.mem_cons_self file tl, a, hda, h2⟩
            · cases hda
        · exact Or.inr ⟨f, List.mem_cons_of_mem file hf, a', ha', hk'⟩

theorem asset_step_good_sub (s : Snapshot) (acc : AssetCat) (k : String) :
    acc.good ⊆ (categorize_asset_step s acc k).good := by
  unfold categorize_asset_step
  split_ifs <;> simp [List.subset_append_left]

theorem asset_step_missing_sub (s : Snapshot) (acc : AssetCat) (k : String) :
    acc.missing ⊆ (categorize_asset_step s acc k).missing := by
  unfold categorize_asset_step
  split_ifs <;> simp [List.subset_append_left]

theorem asset_loop_good_sub (s : Snapshot) (ks : List String) :
    ∀ acc : AssetCat, acc.good ⊆ (categorize_asset_loop s acc ks).good := by
  induction ks with
  | nil => exact fun acc x hx => hx
  | cons q tl ih =>
    exact fun acc x hx => ih _ (asset_step_good_sub s acc q hx)

theorem asset_loop_missing_sub (s : Snapshot) (ks : List String) :
    ∀ acc : AssetCat,
      acc.missing ⊆ (categorize_asset_loop s acc ks).missing := by
  induction ks with
  | nil => exact fun acc x hx => hx
  | cons q tl ih =>
    exact fun acc x hx => ih _ (asset_step_missing_sub s acc q hx)

theorem asset_loop_good_of (s : Snapshot) (ks : List String) :
    ∀ acc : AssetCat, ∀ k ∈ ks, isCacheFile s k = true →
      k ∈ (categorize_asset_loop s acc ks).good := by
  induction ks with
  | nil => simp
  | cons q tl ih =>
    intro acc k hk hpres
    rcases List.mem_cons.mp hk with rfl | hk'
    · refine asset_loop_good_sub s tl _ ?_
      unfold categorize_asset_step
      rw [if_pos hpres]
      simp
    · exact ih _ k hk' hpres

theorem asset_loop_missing_of (s : Snapshot) (ks : List String) :
    ∀ acc : AssetCat, ∀ k ∈ ks, isCacheFile s k = false →
      k ∈ (categorize_asset_loop s acc ks).missing := by
  induction ks with
  | nil => simp
  | cons q tl ih =>
    intro acc k hk habs
    rcases List.mem_cons.mp hk with rfl | hk'
    · refine asset_loop_missing_sub s tl _ ?_
      unfold categorize_asset_step
      rw [if_neg (by simp [habs])]
      simp
    · exact ih _ k hk' habs

theorem asset_step_rest_mem (s : Snapshot) (acc : AssetCat) (k f : String)
    (hf : f ∈ acc.rest) (hne : f ≠ k) :
    f ∈ (categorize_asset_step s acc k).rest := by
  unfold categorize_asset_step
  split_ifs <;> simp_all [List.mem_erase_of_ne hne]

theorem asset_loop_rest_mem (s : Snapshot) (ks : List String) :
    ∀ acc : AssetCat, ∀ f, f ∈ acc.rest → (∀ k ∈ ks, f ≠ k) →
      f ∈ (categorize_asset_loop s acc ks).rest := by
  induction ks with
  | nil => exact fun acc f hf _ => hf
  | cons q tl ih =>
    intro acc f hf hne
    exact ih _ f
      (asset_step_rest_mem s acc q f hf (hne q (List.mem_cons_self q tl)))
      (fun r hr => hne r (List.mem_cons_of_mem q hr))

/-- C3: the trusted asset map of a reconciled state is the one loaded (by
dict union) from exactly the good metadata files — every key of it is
claimed by some good file's document; a key present on disk is classified
good, a key absent from disk is classified missing, and an asset-shaped
cache file that is no key of the trusted map is classified extra. -/
theorem C3_trusted_assets_classification (s : Snapshot) (st : AssetsState)
    (hgen : gen_assets_state s = .ok st) :
    load_from_files s st.good_info_files false = .ok st.good_assets_info ∧
    (∀ k ∈ dictKeys st.good_assets_info.assets,
      ∃ f ∈ st.good_info_files, ∃ a, (s.infoData f).assets = some a ∧
        k ∈ dictKeys a) ∧
    (∀ k ∈ dictKeys st.good_assets_info.assets,
      (isCacheFile s k = true → k ∈ st.good_asset_files) ∧
      (isCacheFile s k = false → k ∈ st.missing_asset_files)) ∧
    (∀ f ∈ st.asset_files, f ∉ dictKeys st.good_assets_info.assets →
      f ∈ st.extra_asset_files) := by
  unfold gen_assets_state at hgen
  dsimp only at hgen
  cases hload : load_from_files s
      (categorize_info_files s (get_asset_cache_dir_files s).2.1).good
      false with
  | error e => rw [hload] at hgen; cases hgen
  | ok gi =>
    rw [hload] at hgen
    injection hgen with hgen
    subst hgen
    refine ⟨hload, ?_, ?_, ?_⟩
    · intro k hk
      rcases load_assets_loop_keys s false _ _ _ hload k hk with h0 | hprov
      · cases h0
      · exact hprov
    · intro k hk
      exact ⟨fun hpres => asset_loop_good_of s _ _ k hk hpres,
        fun habs => asset_loop_missing_of s _ _ k hk habs⟩
    · intro f hf hnk
      exact asset_loop_rest_mem s _ _ f hf
        (fun k hk hek => hnk (hek ▸ hk))

set_option maxRecDepth 20000 in
/-- Witness for C3: one good metadata file claiming one 128-hex asset that
is present on disk; the asset is classified good and the trusted map is
the loaded union. -/
theorem C3_trusted_assets_classification_witness :
    String.mk (List.replicate 128 'a') ∈
      (AssetsState.mk [String.mk (List.replicate 128 'a')]
        [String.mk (List.replicate 128 'a')] [] [] ["_p.json"] ["_p.json"]
        [] [] [] []
        ⟨"", [(String.mk (List.replicate 128 'a'), "u")]⟩).good_asset_files :=
  (((C3_trusted_assets_classification
      ⟨[String.mk (List.replicate 128 'a'), "_p.json"],
        fun _ => ⟨some "h", some [(String.mk (List.replicate 128 'a'), "u")]⟩,
        ["p"], fun _ => "h"⟩
      (AssetsState.mk [String.mk (List.replicate 128 'a')]
        [String.mk (List.replicate 128 'a')] [] [] ["_p.json"] ["_p.json"]
        [] [] [] []
        ⟨"", [(String.mk (List.replicate 128 'a'), "u")]⟩)
      rfl).2.2.1 (String.mk (List.replicate 128 'a'))
      (by decide)).1) (by decide)

/-! ### Pruning -/

/-- C1 (amended): `cleanup_assets` deletes files iff the missing-asset,
missing-metadata and outdated-metadata categories are all empty and the
delete set is non-empty; while any to-process category is non-empty it
deletes nothing and stops with the fixed report
`Error: there are files to process` (which does not name the non-empty
categories); otherwise it deletes exactly the files in
extra-assets ∪ extra-metadata ∪ other and reports exactly that list (or
stops with `No files to delete` when the list is empty). -/
theorem C1_prune_safety (s : Snapshot) (st : AssetsState)
    (hgen : gen_assets_state s = .ok st) :
    (st.missing_asset_files ++ st.missing_info_files ++
        st.outdated_info_files ≠ [] →
      cleanup_assets s = .ok (.stopped "Error: there are files to process")) ∧
    (st.missing_asset_files ++ st.missing_info_files ++
        st.outdated_info_files = [] →
      st.extra_asset_files ++ st.extra_info_files ++ st.other_files = [] →
      cleanup_assets s = .ok (.stopped "No files to delete")) ∧
    (st.missing_asset_files ++ st.missing_info_files ++
        st.outdated_info_files = [] →
      st.extra_asset_files ++ st.extra_info_files ++ st.other_files ≠ [] →
      cleanup_assets s = .ok (.deleted
        (st.extra_asset_files ++ st.extra_info_files ++ st.other_files))) := by
  unfold cleanup_assets
  rw [hgen]
  dsimp only
  refine ⟨fun hne => ?_, fun he hde => ?_, fun he hdne => ?_⟩
  · rw [if_pos hne]
  · rw [if_neg (by simp [he]), if_pos hde]
  · rw [if_neg (by simp [he]), if_neg hdne]

/-- Witness for C1: a concrete safe state (one orphaned `_q.json`, no
missing or outdated project) deletes exactly the orphan and reports it. -/
theorem C1_prune_safety_witness :
    cleanup_assets
      ⟨["_q.json"], fun _ => ⟨some "h", some []⟩, [], fun _ => ""⟩ =
      .ok (.deleted ["_q.json"]) :=
  (C1_prune_safety
    ⟨["_q.json"], fun _ => ⟨some "h", some []⟩, [], fun _ => ""⟩
    { asset_files := [], good_asset_files := [], missing_asset_files := [],
      extra_asset_files := [], info_files := ["_q.json"],
      good_info_files := [], outdated_info_files := [],
      missing_info_files := [], extra_info_files := ["_q.json"],
      other_files := [], good_assets_info := AssetsInfo.empty }
    rfl).2.2 rfl (by decide)

/-- Counterexample for C1: the refusal report is the constant string
`Error: there are files to process`, identical for a state whose only
non-empty to-process category is missing-metadata and for one whose only
non-empty to-process category is outdated-metadata — so the refusal does
not report which categories are non-empty, contrary to the claim. -/
theorem C1_prune_report_counterexample :
    gen_assets_state ⟨[], fun _ => ⟨none, none⟩, ["proj"], fun _ => "h"⟩ =
      .ok { asset_files := [], good_asset_files := [],
            missing_asset_files := [], extra_asset_files := [],
            info_files := [], good_info_files := [],
            outdated_info_files := [], missing_info_files := ["_proj.json"],
            extra_info_files := [], other_files := [],
            good_assets_info := AssetsInfo.empty } ∧
    gen_assets_state
      ⟨["_proj.json"], fun _ => ⟨some "old", some []⟩, ["proj"],
        fun _ => "new"⟩ =
      .ok { asset_files := [], good_asset_files := [],
            missing_asset_files := [], extra_asset_files := [],
            info_files := ["_proj.json"], good_info_files := [],
            outdated_info_files := ["_proj.json"], missing_info_files := [],
            extra_info_files := [], other_files := [],
            good_assets_info := AssetsInfo.empty } ∧
    cleanup_assets ⟨[], fun _ => ⟨none, none⟩, ["proj"], fun _ => "h"⟩ =
      .ok (.stopped "Error: there are files to process") ∧
    cleanup_assets
      ⟨["_proj.json"], fun _ => ⟨some "old", some []⟩, ["proj"],
        fun _ => "new"⟩ =
      .ok (.stopped "Error: there are files to process") :=
  ⟨rfl, rfl, rfl, rfl⟩

/-! ### Partition lemmas -/

theorem isCacheFile_true_iff (s : Snapshot) (n : String) :
    isCacheFile s n = true ↔ n ∈ s.cacheFileNames := by
  simp [isCacheFile, List.contains, List.elem_iff]

theorem is_asset_file_false_of_is_info_file (n : String)
    (h : is_info_file n = true) : is_asset_file n = false := by
  unfold is_info_file at h
  cases gp : get_project_name_from_info_file n with
  | none => rw [gp] at h; cases h
  | some p =>
    unfold get_project_name_from_info_file at gp
    dsimp only at gp
    split_ifs at gp with hc
    obtain ⟨hlen, htake, hdrop, hnl⟩ := hc
    unfold is_asset_file
    cases hls : n.toList with
    | nil => rw [hls] at htake; cases htake
    | cons c t =>
      rw [hls] at htake
      simp [List.take] at htake
      subst htake
      simp [List.all_cons, (by decide : isLowerHexChar '_' = false)]

theorem infoFileName_inj (p q : String)
    (h : infoFileName p = infoFileName q) : p = q := by
  unfold infoFileName at h
  have h2 : ("_" ++ p ++ ".json").data = ("_" ++ q ++ ".json").data := by
    rw [h]
  simp only [String.data_append, List.append_assoc] at h2
  have h3 := List.append_cancel_left h2
  have h4 := List.append_cancel_right h3
  cases p
  cases q
  exact congrArg String.mk h4

theorem load_assets_loop_keys_nodup (s : Snapshot) (mo : Bool)
    (files : List String) :
    ∀ acc info, (dictKeys acc.assets).Nodup →
      load_assets_loop s mo acc files = .ok info →
      (dictKeys info.assets).Nodup := by
  induction files with
  | nil =>
    intro acc info hnd h
    injection h with h
    subst h
    exact hnd
  | cons file tl ih =>
    intro acc info hnd h
    unfold load_assets_loop at h
    cases hld : load_data_from_file s file mo with
    | error e => rw [hld] at h; cases h
    | ok d =>
      rw [hld] at h
      dsimp only at h
      cases hda : d.assets with
      | none => rw [hda] at h; cases h
      | some a =>
        rw [hda] at h
        dsimp only at h
        exact ih _ info (nodup_dictKeys_dictUnion _ a hnd) h

theorem info_loop_missing_false (s : Snapshot) (ms : List String) :
    ∀ acc : InfoCat, (∀ f ∈ acc.missing, isCacheFile s f = false) →
      ∀ f ∈ (categorize_info_loop s acc ms).missing,
        isCacheFile s f = false := by
  induction ms with
  | nil => exact fun acc h => h
  | cons p tl ih =>
    intro acc hacc
    refine ih _ ?_
    unfold categorize_info_step
    dsimp only
    split_ifs with h1 h2
    · exact hacc
    · exact hacc
    · intro f hf
      rcases List.mem_append.mp hf with hf' | hf'
      · exact hacc f hf'
      · rw [List.mem_singleton.mp hf']
        exact Bool.not_eq_true _ ▸ (by simpa using h1)

theorem asset_loop_missing_false (s : Snapshot) (ks : List String) :
    ∀ acc : AssetCat, (∀ f ∈ acc.missing, isCacheFile s f = false) →
      ∀ f ∈ (categorize_asset_loop s acc ks).missing,
        isCacheFile s f = false := by
  induction ks with
  | nil => exact fun acc h => h
  | cons k tl ih =>
    intro acc hacc
    refine ih _ ?_
    unfold categorize_asset_step
    split_ifs with h1
    · exact hacc
    · intro f hf
      rcases List.mem_append.mp hf with hf' | hf'
      · exact hacc f hf'
      · rw [List.mem_singleton.mp hf']
        simpa using h1

theorem info_loop_combined_perm (s : Snapshot) (ms : List String) :
    ∀ acc : InfoCat, ms.Nodup →
      (∀ p ∈ ms, isCacheFile s (infoFileName p) = true →
        infoFileName p ∈ acc.rest) →
      List.Perm
        ((categorize_info_loop s acc ms).good ++
          ((categorize_info_loop s acc ms).outdated ++
            (categorize_info_loop s acc ms).rest))
        (acc.good ++ (acc.outdated ++ acc.rest)) := by
  induction ms with
  | nil => exact fun acc _ _ => List.Perm.refl _
  | cons p tl ih =>
    intro acc hnd hrest
    have hnd' : tl.Nodup := (List.nodup_cons.mp hnd).2
    have hpn : p ∉ tl := (List.nodup_cons.mp hnd).1
    simp only [categorize_info_loop]
    by_cases hpres : isCacheFile s (infoFileName p) = true
    · have hx : infoFileName p ∈ acc.rest :=
        hrest p (List.mem_cons_self p tl) hpres
      have hrest' : ∀ q ∈ tl, isCacheFile s (infoFileName q) = true →
          infoFileName q ∈ acc.rest.erase (infoFileName p) := by
        intro q hq hqp
        have hne : infoFileName q ≠ infoFileName p := fun he =>
          hpn (infoFileName_inj q p he ▸ hq)
        exact (List.mem_erase_of_ne hne).mpr
          (hrest q (List.mem_cons_of_mem p hq) hqp)
      have hr : List.Perm (infoFileName p :: acc.rest.erase (infoFileName p))
          acc.rest := (List.perm_cons_erase hx).symm
      by_cases heq : (s.manifestHash p ==
          (loadExisting s (infoFileName p)).manifest_hash) = true
      · have hstep : categorize_info_step s acc p =
            { good := acc.good ++ [infoFileName p], outdated := acc.outdated,
              missing := acc.missing,
              rest := acc.rest.erase (infoFileName p) } := by
          unfold categorize_info_step
          dsimp only
          rw [if_pos hpres, if_pos heq]
        rw [hstep]
        refine (ih _ hnd' hrest').trans ?_
        dsimp only
        have e1 : (acc.good ++ [infoFileName p]) ++
              (acc.outdated ++ acc.rest.erase (infoFileName p)) =
            acc.good ++ (infoFileName p ::
              (acc.outdated ++ acc.rest.erase (infoFileName p))) := by
          simp
        rw [e1]
        refine List.Perm.append_left acc.good ?_
        refine (List.perm_middle.symm).trans ?_
        exact List.Perm.append_left acc.outdated hr
      · have hstep : categorize_info_step s acc p =
            { good := acc.good, outdated := acc.outdated ++ [infoFileName p],
              missing := acc.missing,
              rest := acc.rest.erase (infoFileName p) } := by
          unfold categorize_info_step
          dsimp only
          rw [if_pos hpres, if_neg heq]
        rw [hstep]
        refine (ih _ hnd' hrest').trans ?_
        dsimp only
        have e1 : acc.good ++ ((acc.outdated ++ [infoFileName p]) ++
              acc.rest.erase (infoFileName p)) =
            acc.good ++ (acc.outdated ++ (infoFileName p ::
              acc.rest.erase (infoFileName p))) := by
          simp
        rw [e1]
        exact List.Perm.append_left acc.good
          (List.Perm.append_left acc.outdated hr)
    · have hrest' : ∀ q ∈ tl, isCacheFile s (infoFileName q) = true →
          infoFileName q ∈ acc.rest := fun q hq hqp =>
        hrest q (List.mem_cons_of_mem p hq) hqp
      have hstep : categorize_info_step s acc p =
          { good := acc.good, outdated := acc.outdated,
            missing := acc.missing ++ [infoFileName p], rest := acc.rest } := by
        unfold categorize_info_step
        dsimp only
        rw [if_neg hpres]
      rw [hstep]
      exact ih _ hnd' hrest'

theorem asset_loop_combined_perm (s : Snapshot) (ks : List String) :
    ∀ acc : AssetCat, ks.Nodup →
      (∀ k ∈ ks, isCacheFile s k = true → k ∈ acc.rest) →
      List.Perm
        ((categorize_asset_loop s acc ks).good ++
          (categorize_asset_loop s acc ks).rest)
        (acc.good ++ acc.rest) := by
  induction ks with
  | nil => exact fun acc _ _ => List.Perm.refl _
  | cons k tl ih =>
    intro acc hnd hrest
    have hnd' : tl.Nodup := (List.nodup_cons.mp hnd).2
    have hkn : k ∉ tl := (List.nodup_cons.mp hnd).1
    simp only [categorize_asset_loop]
    by_cases hpres : isCacheFile s k = true
    · have hx : k ∈ acc.rest := hrest k (List.mem_cons_self k tl) hpres
      have hrest' : ∀ q ∈ tl, isCacheFile s q = true →
          q ∈ acc.rest.erase k := by
        intro q hq hqp
        have hne : q ≠ k := fun he => hkn (he ▸ hq)
        exact (List.mem_erase_of_ne hne).mpr
          (hrest q (List.mem_cons_of_mem k hq) hqp)
      have hstep : categorize_asset_step s acc k =
          { good := acc.good ++ [k], missing := acc.missing,
            rest := acc.rest.erase k } := by
        unfold categorize_asset_step
        rw [if_pos hpres]
      rw [hstep]
      refine (ih _ hnd' hrest').trans ?_
      dsimp only
      have e1 : (acc.good ++ [k]) ++ acc.rest.erase k =
          acc.good ++ (k :: acc.rest.erase k) := by
        simp
      rw [e1]
      exact List.Perm.append_left acc.good (List.perm_cons_erase hx).symm
    · have hrest' : ∀ q ∈ tl, isCacheFile s q = true → q ∈ acc.rest :=
        fun q hq hqp => hrest q (List.mem_cons_of_mem k hq) hqp
      have hstep : categorize_asset_step s acc k =
          { good := acc.good, missing := acc.missing ++ [k],
            rest := acc.rest } := by
        unfold categorize_asset_step
        rw [if_neg hpres]
      rw [hstep]
      exact ih _ hnd' hrest'

/-- C4 (amended): for a well-formed snapshot, the on-disk categories —
good and extra asset files, good, outdated and extra metadata files, and
other files — are pairwise disjoint (their concatenation has no
duplicates) and their union is exactly the cache directory's file list
(the concatenation is a permutation of it); the two missing categories
contain only paths that are not in the cache directory, and so are
disjoint from every on-disk category. -/
theorem C4_partition_law (s : Snapshot) (st : AssetsState)
    (hwf : WFSnapshot s) (hgen : gen_assets_state s = .ok st) :
    List.Perm
      (st.good_asset_files ++ st.extra_asset_files ++ st.good_info_files ++
        st.outdated_info_files ++ st.extra_info_files ++ st.other_files)
      s.cacheFileNames ∧
    (st.good_asset_files ++ st.extra_asset_files ++ st.good_info_files ++
      st.outdated_info_files ++ st.extra_info_files ++
      st.other_files).Nodup ∧
    (∀ f ∈ st.missing_asset_files, f ∉ s.cacheFileNames) ∧
    (∀ f ∈ st.missing_info_files, f ∉ s.cacheFileNames) := by
  unfold gen_assets_state at hgen
  dsimp only at hgen
  cases hload : load_from_files s
      (categorize_info_files s (get_asset_cache_dir_files s).2.1).good
      false with
  | error e => rw [hload] at hgen; cases hgen
  | ok gi =>
    rw [hload] at hgen
    injection hgen with hgen
    subst hgen
    dsimp only
    set c := s.cacheFileNames with hc
    set A := c.filter is_asset_file with hA
    set R := c.filter (fun x => !(is_asset_file x)) with hR
    set I := R.filter is_info_file with hI
    set O := R.filter (fun x => !(is_info_file x)) with hO
    have hsplit : (get_asset_cache_dir_files s) = (A, I, O) := rfl
    rw [hsplit]
    dsimp only
    -- the base split of the cache listing
    have permAR : List.Perm (A ++ R) c := List.filter_append_perm _ c
    have permIO : List.Perm (I ++ O) R := List.filter_append_perm _ R
    have permBase : List.Perm (A ++ (I ++ O)) c :=
      (List.Perm.append_left A permIO).trans permAR
    -- the metadata loop permutes I into good/outdated/rest
    have hinit_info : ∀ p ∈ s.manifestNames,
        isCacheFile s (infoFileName p) = true → infoFileName p ∈ I := by
      intro p hp hpres
      have hinfo := hwf.manifests_info p hp
      have hnasset := is_asset_file_false_of_is_info_file _ hinfo
      have hmemc : infoFileName p ∈ c := (isCacheFile_true_iff s _).mp hpres
      rw [hI, hR]
      exact List.mem_filter.mpr
        ⟨List.mem_filter.mpr ⟨hmemc, by simp [hnasset]⟩, hinfo⟩
    have permInfo := info_loop_combined_perm s s.manifestNames
      { good := [], outdated := [], missing := [], rest := I }
      hwf.manifests_nodup hinit_info
    dsimp only at permInfo
    rw [List.nil_append, List.nil_append] at permInfo
    -- the asset loop permutes A into good/rest
    have hkeys_nodup : (dictKeys gi.assets).Nodup :=
      load_assets_loop_keys_nodup s false _ _ gi
        (by simp [dictKeys, AssetsInfo.empty]) hload
    have hinit_asset : ∀ k ∈ dictKeys gi.assets,
        isCacheFile s k = true → k ∈ A := by
      intro k hk hpres
      rcases load_assets_loop_keys s false _ _ gi hload k hk with h0 | hprov
      · simp [AssetsInfo.empty, dictKeys] at h0
      · obtain ⟨f, _, a, ha, hka⟩ := hprov
        have hshape := hwf.keys_asset f a ha k hka
        have hmemc : k ∈ c := (isCacheFile_true_iff s _).mp hpres
        rw [hA]
        exact List.mem_filter.mpr ⟨hmemc, hshape⟩
    have permAsset := asset_loop_combined_perm s (dictKeys gi.assets)
      { good := [], missing := [], rest := A } hkeys_nodup hinit_asset
    dsimp only at permAsset
    rw [List.nil_append] at permAsset
    -- assemble
    have main : List.Perm
        (((categorize_asset_loop s
            { good := [], missing := [], rest := A }
            (dictKeys gi.assets)).good ++
          (categorize_asset_loop s
            { good := [], missing := [], rest := A }
            (dictKeys gi.assets)).rest) ++
         (((categorize_info_loop s
            { good := [], outdated := [], missing := [], rest := I }
            s.manifestNames).good ++
           ((categorize_info_loop s
            { good := [], outdated := [], missing := [], rest := I }
            s.manifestNames).outdated ++
            (categorize_info_loop s
            { good := [], outdated := [], missing := [], rest := I }
            s.manifestNames).rest)) ++ O)) c :=
      (permAsset.append (permInfo.append (List.Perm.refl O))).trans permBase
    have hgoal1 : List.Perm
        ((categorize_asset_files s A gi).good ++
          (categorize_asset_files s A gi).rest ++
          (categorize_info_files s I).good ++
          (categorize_info_files s I).outdated ++
          (categorize_info_files s I).rest ++ O) c := by
      refine List.Perm.trans ?_ main
      unfold categorize_asset_files categorize_info_files
      simp [List.append_assoc]
    refine ⟨hgoal1, hgoal1.symm.nodup ?_, ?_, ?_⟩
    · exact hwf.cache_nodup
    · intro f hf
      have := asset_loop_missing_false s (dictKeys gi.assets)
        { good := [], missing := [], rest := A } (by simp) f hf
      intro hmem
      rw [(isCacheFile_true_iff s f).mpr hmem] at this
      cases this
    · intro f hf
      have := info_loop_missing_false s s.manifestNames
        { good := [], outdated := [], missing := [], rest := I }
        (by simp) f hf
      intro hmem
      rw [(isCacheFile_true_iff s f).mpr hmem] at this
      cases this

/-- Counterexample for C4 as stated: on a snapshot with one manifest
`proj` and an empty cache directory, reconciliation puts `_proj.json` into
the missing-metadata category, so the union of all categories (missing
ones included, as the claim enumerates them) is `["_proj.json"]`, which is
not the cache directory's (empty) file list — the missing categories list
paths that are **not** in the cache directory. -/
theorem C4_partition_law_counterexample :
    gen_assets_state ⟨[], fun _ => ⟨none, none⟩, ["proj"], fun _ => "h"⟩ =
      .ok { asset_files := [], good_asset_files := [],
            missing_asset_files := [], extra_asset_files := [],
            info_files := [], good_info_files := [],
            outdated_info_files := [], missing_info_files := ["_proj.json"],
            extra_info_files := [], other_files := [],
            good_assets_info := AssetsInfo.empty } ∧
    ¬ List.Perm
        (([] : List String) ++ [] ++ [] ++ [] ++ [] ++ ["_proj.json"] ++
          [] ++ [])
        ([] : List String) :=
  ⟨rfl, by decide⟩

/-- Witness for C4 (amended): a snapshot with one good project and one
unrecognized file; the on-disk categories concatenate to a permutation of
the cache listing. -/
theorem C4_partition_law_witness :
    List.Perm (([] : List String) ++ [] ++ ["_p.json"] ++ [] ++ [] ++
      ["junk"]) ["_p.json", "junk"] :=
  (C4_partition_law
    ⟨["_p.json", "junk"], fun _ => ⟨some "h", some []⟩, ["p"], fun _ => "h"⟩
    { asset_files := [], good_asset_files := [], missing_asset_files := [],
      extra_asset_files := [], info_files := ["_p.json"],
      good_info_files := ["_p.json"], outdated_info_files := [],
      missing_info_files := [], extra_info_files := [],
      other_files := ["junk"], good_assets_info := AssetsInfo.empty }
    ⟨by decide, by decide, by decide,
      by
        rintro f a ha k hk
        injection ha with ha
        subst ha
        simp [dictKeys] at hk⟩
    rfl).1

end Vcpkg
